import Mathlib

/-
Verification development for the multipart-uploader client
(src/src/client/index.ts, src/src/client/util.ts).

The TypeScript code is shallowly embedded as pure Lean functions:

* localStorage is an explicit map from keys to stored values;
* JSON.parse is an explicit parameter returning an Option (none models a
  parse exception);
* JavaScript numbers are modeled with exact arithmetic (ℚ for byte sizes,
  which can be fractional in the code, ℤ/ℕ for counts and percentages);
* the cooperative async semantics of promiseFnThrottle is embedded as a
  deterministic transition system over an explicit scheduler state, driven
  by a list of settlement events chosen by the environment;
* event emission and store mutation are modeled as explicit traces.
-/

namespace MultipartUploader

/-! ## Shared data types (src/src/shared/index.ts, src/src/client/index.ts)

Fields that JavaScript may leave undefined or null are modeled as Option.
JavaScript truthiness on strings (undefined, null and the empty string are
falsy) is made explicit by strTruthy below. -/

structure UploadPartResponse where
  ETag : Option String
  PartNumber : Nat
deriving Repr, DecidableEq

structure LocalUploadRecord where
  originalFilename : String
  totalFileSizeInBytes : ℚ
  totalParts : ℤ
  partSizeInBytes : ℚ
  finishedParts : List UploadPartResponse
  uploadId : Option String
  s3Filename : Option String
deriving Repr, DecidableEq

structure CreateMultipartUploadResponse where
  uploadId : Option String
  s3Filename : Option String
deriving Repr, DecidableEq

/-- JavaScript truthiness of a possibly-missing string value:
undefined/null and the empty string are falsy. -/
def strTruthy : Option String → Bool
  | none => false
  | some s => s != ""

/-! ## client/util.ts -/

/-- Embedding of getLS: localStorage.getItem over an explicit store. -/
def getLS (store : String → Option String) (key : String) : Option String :=
  store key

/-- Embedding of getAndParseLS.  The JSON.parse builtin is passed in as
a function returning none when parsing throws.  The code first checks
falsiness of the fetched string (absent key, or present empty string),
then parses inside try/catch, returning null on a parse error. -/
def getAndParseLS {α : Type} (parse : String → Option α)
    (store : String → Option String) (key : String) : Option α :=
  match getLS store key with
  | none => none
  | some dataString =>
    if dataString = "" then none
    else
      match parse dataString with
      | some v => some v
      | none => none

/-- Embedding of cleanUpETags: keeps entries whose ETag is truthy. -/
def cleanUpETags (arr : List UploadPartResponse) : List UploadPartResponse :=
  arr.filter (fun obj => strTruthy obj.ETag)

/-! ## Part planning (uploadMultipart, src/src/client/index.ts lines 458-460)

The code computes, in JavaScript number arithmetic,
  partSizeInBytes = partMinSizeBytes + file.size / maxNumParts
  numParts = Math.ceil(file.size / partSizeInBytes)
which we embed with exact rational arithmetic.  Math.ceil is embedded as
an executable ceiling on ℚ (ratCeil), proved equal to Int.ceil below. -/

def ratFloor (q : ℚ) : ℤ := q.num / q.den

def ratCeil (q : ℚ) : ℤ := -ratFloor (-q)

def partSizeInBytesQ (fileSize partMinSizeBytes : ℚ) (maxNumParts : ℕ) : ℚ :=
  partMinSizeBytes + fileSize / maxNumParts

def numPartsQ (fileSize partMinSizeBytes : ℚ) (maxNumParts : ℕ) : ℤ :=
  ratCeil (fileSize / partSizeInBytesQ fileSize partMinSizeBytes maxNumParts)

/-- Concrete parse function used to witness the getAndParseLS theorem. -/
def demoParse (s : String) : Option ℕ :=
  if s = "7" then some 7 else none

/-- Concrete backing store used to witness the getAndParseLS theorem. -/
def demoStore (k : String) : Option String :=
  if k = "k1" then some "7" else none

/-! ## Concurrency throttle (promiseFnThrottle, src/src/client/util.ts lines 4-17)

JavaScript runs promiseFnThrottle calls and promise reactions on a single
cooperative thread.  loopMultipartParts submits every task factory
synchronously, so the first min(limit, M) calls find a free slot and invoke
their factory immediately, while each later call suspends on
await Promise.race(executing).  All suspended calls race the same shared
executing set, re-captured on every wake in FIFO registration order, so
every settlement wakes all waiters in submission order and each woken
waiter launches exactly when its recheck of the while guard sees a free
slot.  The environment drives the scheduler with a list of settlement
events (task index, outcome); only a launched, still-unsettled task may
settle, which the transition guards enforce.

The slot-release callback in the source is
promise.then(() => executing.delete(promise)): it is registered for
fulfillment only.  A rejected promise therefore stays in the executing set
forever (tracked in the zombies field below), and its rejection makes
every pending Promise.race reject, aborting every suspended
promiseFnThrottle call before it ever invokes its factory (tracked in the
aborted field). -/

inductive Outcome where
  | fulfilled
  | rejected
deriving Repr, DecidableEq

@[ext]
structure ThrottleState where
  limit : ℕ
  executing : List ℕ
  zombies : List ℕ
  waiting : List ℕ
  launched : List ℕ
  aborted : List ℕ
deriving Repr, DecidableEq

def initialThrottleState (limit : ℕ) : ThrottleState :=
  { limit := limit, executing := [], zombies := [], waiting := [],
    launched := [], aborted := [] }

/-- One synchronous promiseFnThrottle call during the submission loop:
with a free slot the factory runs at once (the while loop is skipped),
otherwise the call suspends on the shared race. -/
def submitOne (s : ThrottleState) (k : ℕ) : ThrottleState :=
  if s.executing.length < s.limit then
    { s with executing := s.executing ++ [k], launched := s.launched ++ [k] }
  else
    { s with waiting := s.waiting ++ [k] }

def submitAll (limit numTasks : ℕ) : ThrottleState :=
  (List.range numTasks).foldl submitOne (initialThrottleState limit)

/-- One settlement processed by the microtask queue.  On fulfillment the
delete callback (registered first) frees the slot, then the woken waiters
recheck the guard in FIFO order, so min(freed capacity, queue length)
waiters launch.  On rejection no delete runs, the promise occupies its
slot forever, and every waiter aborts because its race rejects. -/
def settleStep (s : ThrottleState) (k : ℕ) (oc : Outcome) : ThrottleState :=
  if k ∈ s.executing ∧ k ∉ s.zombies then
    match oc with
    | Outcome.fulfilled =>
      let ex := s.executing.erase k
      let cap := s.limit - ex.length
      { s with executing := ex ++ s.waiting.take cap,
               launched := s.launched ++ s.waiting.take cap,
               waiting := s.waiting.drop cap }
    | Outcome.rejected =>
      { s with zombies := s.zombies ++ [k],
               aborted := s.aborted ++ s.waiting,
               waiting := [] }
  else s

def runThrottle (limit numTasks : ℕ) (events : List (ℕ × Outcome)) : ThrottleState :=
  events.foldl (fun s e => settleStep s e.fst e.snd) (submitAll limit numTasks)

/-- Number of launched, not-yet-settled tasks: members of the executing
set that are not rejected leftovers. -/
def outstandingCount (s : ThrottleState) : ℕ :=
  (s.executing.filter (fun k => !(s.zombies.contains k))).length

/-- The schedule in which every task fulfills, in submission order. -/
def fulfilledSchedule (numTasks : ℕ) : List (ℕ × Outcome) :=
  (List.range numTasks).map (fun i => (i, Outcome.fulfilled))

/-- Closed form of the scheduler state after the first i tasks of an
all-fulfilled schedule have settled. -/
def steadyState (limit numTasks i : ℕ) : ThrottleState :=
  { limit := limit,
    executing := List.range' i (min limit (numTasks - i)),
    zombies := [],
    waiting := List.range' (min (i + limit) numTasks) (numTasks - i - limit),
    launched := List.range (min (i + limit) numTasks),
    aborted := [] }

/-- Scheduler invariant: the executing set never exceeds the limit, a
nonempty wait queue means the executing set is full, and the launched and
waiting tasks are consecutive initial ranges of the submission order. -/
def ThrottleInv (s : ThrottleState) : Prop :=
  s.executing.length ≤ s.limit ∧
  (s.waiting ≠ [] → s.executing.length = s.limit) ∧
  ∃ L A, s.launched = List.range L ∧ s.waiting = List.range' L A

/-! ## Part upload results and finalize ordering (loopMultipartParts,
uploadMultipart lines 520-550, uploadUnfinishedMultipart lines 381-431)

The fresh flow passes resolvedArr = await Promise.all(promisesArr)
directly to the complete call.  Promise.all preserves the order of its
input array — not completion order — and loopMultipartParts pushes one
promise per partNumber in ascending loop order, each resolving to a
response carrying its own PartNumber = partNumber + 1, so the resolved
array is modeled as a map over the ascending loop range.  The etags
parameter gives the ETag value each part's PUT eventually returns.

The resume flow first skips every part number present in the 1-based
finishedPartsLookup, then appends the new results to the finished ones
and sorts by PartNumber with an explicit comparator; the JavaScript sort
is modeled as a stable comparator-respecting sort. -/

def freshResolvedArr (etags : ℕ → Option String) (totalParts : ℕ) :
    List UploadPartResponse :=
  (List.range totalParts).map (fun partNumber =>
    { ETag := etags partNumber, PartNumber := partNumber + 1 })

/-- Truthiness of finishedPartsLookup[n]: some finished part has this
part number (later duplicates overwrite earlier ones in the JS object,
which does not change truthiness). -/
def finishedPartsLookup (cleaned : List UploadPartResponse) (n : ℕ) : Bool :=
  cleaned.any (fun item => item.PartNumber == n)

/-- The results of the parts actually transferred by the resume flow:
loop order ascending, skipping part numbers marked finished. -/
def resumeResolvedArr (etags : ℕ → Option String) (totalParts : ℕ)
    (cleaned : List UploadPartResponse) : List UploadPartResponse :=
  (List.range totalParts).filterMap (fun partNumber =>
    if finishedPartsLookup cleaned (partNumber + 1) then none
    else some { ETag := etags partNumber, PartNumber := partNumber + 1 })

/-- uploadPartsArray.sort((a, b) => a.PartNumber < b.PartNumber ? -1 : ...):
an ascending stable sort by PartNumber. -/
def sortedUploadPartsArray (parts : List UploadPartResponse) :
    List UploadPartResponse :=
  parts.insertionSort (fun a b => a.PartNumber ≤ b.PartNumber)

def partNumbers (l : List UploadPartResponse) : List ℕ :=
  l.map (fun p => p.PartNumber)

/-! ## Progress aggregation (uploadPartToS3 lines 212-229, resume seeding
uploadUnfinishedMultipart lines 371-379)

Each onprogress callback writes round(loaded*100/total) into
partsUploadProgress[partNumber]; the model lets the environment supply
any per-part percentage directly.  The aggregate is
Math.floor(sum / totalParts) and is emitted on totalProgress only when it
strictly exceeds the last emitted value.  On resume, the finished parts
are first seeded at 100 and Math.round((finished/totalParts)*100) is
emitted on totalProgress directly, without consulting or updating
totalUploadProgress.  Rounding is embedded exactly:
round(100k/n) = floor((200k + n) / (2n)). -/

structure ProgressState where
  partsUploadProgress : List (ℕ × ℕ)
  totalUploadProgress : ℕ
deriving Repr, DecidableEq

/-- JavaScript object property write partsUploadProgress[pn] = pct:
overwrite the entry when the key exists, append it otherwise. -/
def setPartProgress (m : List (ℕ × ℕ)) (pn pct : ℕ) : List (ℕ × ℕ) :=
  if m.any (fun e => e.fst == pn) then
    m.map (fun e => if e.fst == pn then (pn, pct) else e)
  else m ++ [(pn, pct)]

/-- Object.values(partsUploadProgress).reduce((sum, p) => sum + p, 0). -/
def progressSum (m : List (ℕ × ℕ)) : ℕ :=
  (m.map (fun e => e.snd)).sum

/-- One onprogress callback for part pn reporting pct: update the map,
recompute the floored aggregate, and emit it only when strictly above
the last emitted value. -/
def onProgressStep (totalParts : ℕ) (s : ProgressState) (pn pct : ℕ) :
    ProgressState × Option ℕ :=
  let parts := setPartProgress s.partsUploadProgress pn pct
  let total := progressSum parts / totalParts
  if s.totalUploadProgress < total then
    ({ partsUploadProgress := parts, totalUploadProgress := total }, some total)
  else
    ({ s with partsUploadProgress := parts }, none)

/-- Run a sequence of onprogress callbacks, collecting the guarded
totalProgress emissions in order. -/
def runProgress (totalParts : ℕ) (s : ProgressState) :
    List (ℕ × ℕ) → ProgressState × List ℕ
  | [] => (s, [])
  | e :: rest =>
    let step := onProgressStep totalParts s e.fst e.snd
    let tail := runProgress totalParts step.fst rest
    (tail.fst, step.snd.toList ++ tail.snd)

/-- Resume seeding: each finished part's progress entry is set to 100
before any transfer starts; totalUploadProgress stays at its initial 0. -/
def seedFinishedParts (cleaned : List UploadPartResponse) : ProgressState :=
  { partsUploadProgress :=
      cleaned.foldl (fun m part => setPartProgress m part.PartNumber 100) [],
    totalUploadProgress := 0 }

/-- Math.round((finishedCount / totalParts) * 100) in exact arithmetic. -/
def startingPercentage (finishedCount totalParts : ℕ) : ℕ :=
  (200 * finishedCount + totalParts) / (2 * totalParts)

/-- All percentages emitted on the totalProgress channel during a resumed
upload: the unguarded resume-time emission followed by the guarded
aggregator emissions produced by the onprogress steps. -/
def resumeProgressTrace (totalParts : ℕ) (cleaned : List UploadPartResponse)
    (steps : List (ℕ × ℕ)) : List ℕ :=
  startingPercentage cleaned.length totalParts ::
    (runProgress totalParts (seedFinishedParts cleaned) steps).snd

/-! ## Orchestration of resume, create and part phases
(uploadUnfinishedMultipart lines 338-366, uploadMultipart lines 454-518,
uploadPartToS3 lines 231-261)

Event emission and localStorage mutation are modeled as explicit traces:
a run of the orchestrator produces the list of emitted events, the list
of store actions (applied in order to an explicit store), and a branch or
outcome value.  The per-part phase is driven by a list of settlement
outcomes; a part success reads the record, appends its response and
writes the record back, a part failure changes nothing in the store, and
the aggregate Promise.all rejects as soon as any part failed.  Neither
the part failure handler nor the catch block around Promise.all ever
removes the persisted record; only reset (after a successful complete)
and the invalid-resume-record fallback do. -/

inductive StoreAction where
  | setRecord (key : String) (r : LocalUploadRecord)
  | removeRecord (key : String)
deriving Repr, DecidableEq

inductive UploadEvent where
  | uploadStarted
  | uploadResumed (startPct : ℕ)
  | uploadCreated (uploadId s3Filename : Option String)
  | totalProgressEv (pct : ℕ)
  | errorEvent (msg : String)
  | uploadCompleteEv (s3Filename : String)
deriving Repr, DecidableEq

inductive ResumeBranch where
  | freshFallback
  | resumeParts (cleaned : List UploadPartResponse)
deriving Repr, DecidableEq

def lsKey (fileName : String) : String := String.append "video|" fileName

def applyStoreAction (store : String → Option LocalUploadRecord) :
    StoreAction → String → Option LocalUploadRecord
  | StoreAction.setRecord key r => fun k => if k = key then some r else store k
  | StoreAction.removeRecord key => fun k => if k = key then none else store k

def applyStoreActions (store : String → Option LocalUploadRecord)
    (actions : List StoreAction) : String → Option LocalUploadRecord :=
  actions.foldl applyStoreAction store

def isCompleteLocalRecord (r : LocalUploadRecord)
    (cleaned : List UploadPartResponse) : Bool :=
  strTruthy r.uploadId && strTruthy r.s3Filename && !cleaned.isEmpty &&
    decide (0 < r.totalParts) && decide (r.partSizeInBytes ≠ 0)

def specCompleteCheck (r : LocalUploadRecord)
    (cleaned : List UploadPartResponse) : Bool :=
  strTruthy r.uploadId && strTruthy r.s3Filename && !cleaned.isEmpty &&
    decide (0 < r.totalParts) && decide (0 < r.partSizeInBytes)

def uploadUnfinishedPrefix (fileName : String) (r : LocalUploadRecord) :
    List StoreAction × List UploadEvent × ResumeBranch :=
  let cleaned := cleanUpETags r.finishedParts
  let setAction := StoreAction.setRecord (lsKey fileName)
    { r with finishedParts := cleaned }
  if isCompleteLocalRecord r cleaned then
    ([setAction],
     [UploadEvent.uploadResumed (startingPercentage cleaned.length r.totalParts.toNat),
      UploadEvent.totalProgressEv (startingPercentage cleaned.length r.totalParts.toNat)],
     ResumeBranch.resumeParts cleaned)
  else
    ([setAction, StoreAction.removeRecord (lsKey fileName)], [],
     ResumeBranch.freshFallback)

def badRecord : LocalUploadRecord :=
  { originalFilename := "f.mov", totalFileSizeInBytes := 30, totalParts := 3,
    partSizeInBytes := -1, finishedParts := [{ ETag := some "e", PartNumber := 1 }],
    uploadId := some "u", s3Filename := some "s" }

def afterCreateResolved (fileName : String) (fileSize partMinSizeBytes : ℚ)
    (maxNumParts : ℕ) (resp : CreateMultipartUploadResponse) :
    List UploadEvent × List StoreAction × Except String Unit :=
  let created := UploadEvent.uploadCreated resp.uploadId resp.s3Filename
  if !strTruthy resp.s3Filename || !strTruthy resp.uploadId then
    ([created, UploadEvent.errorEvent
        "uploadMultipartCreate | did not receive either s3Filename or uploadId"],
     [],
     Except.error
       "uploadMultipartCreate | did not receive either s3Filename or uploadId")
  else
    ([created],
     [StoreAction.setRecord (lsKey fileName)
        { originalFilename := fileName,
          totalFileSizeInBytes := fileSize,
          totalParts := numPartsQ fileSize partMinSizeBytes maxNumParts,
          partSizeInBytes := partSizeInBytesQ fileSize partMinSizeBytes maxNumParts,
          finishedParts := [],
          uploadId := resp.uploadId,
          s3Filename := resp.s3Filename }],
     Except.ok ())

def persistedTotalParts (actions : List StoreAction) : Option ℤ :=
  match actions with
  | [StoreAction.setRecord _ r] => some r.totalParts
  | _ => none

inductive PartOutcome where
  | succeeded (resp : UploadPartResponse)
  | failed (partNumber : ℕ)
deriving Repr, DecidableEq

def applyPartOutcome (store : Option LocalUploadRecord) :
    PartOutcome → Option LocalUploadRecord
  | PartOutcome.succeeded resp =>
    match store with
    | some r => some { r with finishedParts := r.finishedParts ++ [resp] }
    | none => none
  | PartOutcome.failed _ => store

def runPartsPhase (store : Option LocalUploadRecord)
    (evs : List PartOutcome) : Option LocalUploadRecord :=
  evs.foldl applyPartOutcome store

def succeededResponses (evs : List PartOutcome) : List UploadPartResponse :=
  evs.filterMap (fun e => match e with
    | PartOutcome.succeeded r => some r
    | PartOutcome.failed _ => none)

def partsPhaseRejects (evs : List PartOutcome) : Bool :=
  evs.any (fun e => match e with
    | PartOutcome.failed _ => true
    | PartOutcome.succeeded _ => false)

def partsPhaseResult (evs : List PartOutcome) :
    Except String (List UploadPartResponse) :=
  if partsPhaseRejects evs then
    Except.error "Video Upload | one or more parts failed to upload to s3"
  else Except.ok (succeededResponses evs)

def plannedPartNumbers (totalParts : ℕ) (cleaned : List UploadPartResponse) : List ℕ :=
  (List.range totalParts).filterMap (fun partNumber =>
    if finishedPartsLookup cleaned (partNumber + 1) then none
    else some (partNumber + 1))

def demoPartsRecord : LocalUploadRecord :=
  { originalFilename := "h.mov", totalFileSizeInBytes := 30, totalParts := 3,
    partSizeInBytes := 10, finishedParts := [], uploadId := some "u",
    s3Filename := some "s" }

def demoPartsEvents : List PartOutcome :=
  [PartOutcome.succeeded { ETag := some "e1", PartNumber := 1 },
   PartOutcome.failed 2]


/-! # Theorems -/

theorem ratFloor_eq (q : ℚ) : ratFloor q = ⌊q⌋ := Rat.floor_def.symm

theorem ratCeil_eq (q : ℚ) : ratCeil q = ⌈q⌉ := by
  rw [ratCeil, ratFloor_eq, Int.floor_neg, neg_neg]

/-- C5: uploadMultipart computes partSizeInBytes = partMinSizeBytes +
file.size / maxNumParts and numParts = ceil(file.size / partSizeInBytes)
in exact arithmetic, and for every file.size ≥ 0 with positive
partMinSizeBytes and maxNumParts the resulting numParts never exceeds
maxNumParts. -/
theorem numParts_le_maxNumParts (fileSize partMinSizeBytes : ℚ) (maxNumParts : ℕ)
    (hs : 0 ≤ fileSize) (hm : 0 < partMinSizeBytes) (hp : 0 < maxNumParts) :
    partSizeInBytesQ fileSize partMinSizeBytes maxNumParts
        = partMinSizeBytes + fileSize / maxNumParts ∧
    numPartsQ fileSize partMinSizeBytes maxNumParts
        = ⌈fileSize / partSizeInBytesQ fileSize partMinSizeBytes maxNumParts⌉ ∧
    numPartsQ fileSize partMinSizeBytes maxNumParts ≤ maxNumParts := by
  refine ⟨rfl, by rw [numPartsQ, ratCeil_eq], ?_⟩
  have hpq : (0 : ℚ) < maxNumParts := by exact_mod_cast hp
  have hden : 0 < partSizeInBytesQ fileSize partMinSizeBytes maxNumParts := by
    have : 0 ≤ fileSize / maxNumParts := div_nonneg hs hpq.le
    unfold partSizeInBytesQ; linarith
  have hx : fileSize / partSizeInBytesQ fileSize partMinSizeBytes maxNumParts
      ≤ (maxNumParts : ℚ) := by
    rw [div_le_iff₀ hden]
    unfold partSizeInBytesQ
    rw [mul_add, mul_div_cancel₀ _ hpq.ne.symm]
    nlinarith
  rw [numPartsQ, ratCeil_eq]
  calc ⌈fileSize / partSizeInBytesQ fileSize partMinSizeBytes maxNumParts⌉
      ≤ ⌈(maxNumParts : ℚ)⌉ := Int.ceil_le_ceil hx
    _ = maxNumParts := Int.ceil_intCast maxNumParts

/-- Witness for the C5 theorem at the spec's own example:
totalSizeBytes = 100·2^20, minPartSizeBytes = 10·2^20, maxParts = 96. -/
theorem numParts_le_maxNumParts_witness :
    (0 ≤ (100 * 2 ^ 20 : ℚ) ∧ 0 < (10 * 2 ^ 20 : ℚ) ∧ 0 < 96) ∧
    (partSizeInBytesQ (100 * 2 ^ 20) (10 * 2 ^ 20) 96
        = 10 * 2 ^ 20 + (100 * 2 ^ 20) / 96 ∧
      numPartsQ (100 * 2 ^ 20) (10 * 2 ^ 20) 96
        = ⌈(100 * 2 ^ 20) / partSizeInBytesQ (100 * 2 ^ 20) (10 * 2 ^ 20) 96⌉ ∧
      numPartsQ (100 * 2 ^ 20) (10 * 2 ^ 20) 96 ≤ 96) :=
  ⟨⟨by norm_num, by norm_num, by norm_num⟩,
    numParts_le_maxNumParts (100 * 2 ^ 20) (10 * 2 ^ 20) 96
      (by norm_num) (by norm_num) (by norm_num)⟩

/-- C4 (code divergence): for a zero-size payload the planner in
uploadMultipart computes numParts = ceil(0 / partSizeInBytes) = 0, with no
special case, and the record persisted after a successful create carries
totalParts = 0 — so the claimed totalParts ≥ 1 fails at file.size = 0. -/
theorem numParts_zero_size_eq_zero :
    numPartsQ 0 (10 * 2 ^ 20) 96 = 0 ∧
    ¬(1 ≤ numPartsQ 0 (10 * 2 ^ 20) 96) ∧
    persistedTotalParts
      (afterCreateResolved "f.mov" 0 (10 * 2 ^ 20) 96 ⟨some "u", some "s"⟩).2.1
      = some 0 := by
  have h0 : numPartsQ 0 (10 * 2 ^ 20 : ℚ) 96 = 0 := by
    simp [numPartsQ, partSizeInBytesQ, ratCeil_eq]
  refine ⟨h0, by simp [h0], ?_⟩
  simp [afterCreateResolved, strTruthy, persistedTotalParts, h0]

/-- C9: getAndParseLS returns the parsed record when the stored value is
a valid JSON string, and returns null rather than throwing when the key
is absent or the stored string fails to parse.  The parse parameter
models JSON.parse, returning none when parsing throws; the hypothesis
records that the empty string is not valid JSON. -/
theorem getAndParseLS_spec {α : Type} (parse : String → Option α)
    (store : String → Option String) (key : String)
    (hempty : parse "" = none) :
    (store key = none → getAndParseLS parse store key = none) ∧
    (∀ s, store key = some s → parse s = none →
      getAndParseLS parse store key = none) ∧
    (∀ s v, store key = some s → parse s = some v →
      getAndParseLS parse store key = some v) := by
  refine ⟨?_, ?_, ?_⟩
  · intro h
    simp [getAndParseLS, getLS, h]
  · intro s hs hp
    by_cases he : s = "" <;> simp [getAndParseLS, getLS, hs, hp, he]
  · intro s v hs hp
    have hne : s ≠ "" := by
      rintro rfl
      rw [hempty] at hp
      cases hp
    simp [getAndParseLS, getLS, hs, hne, hp]

/-- Witness for the C9 theorem on a concrete parse function and store. -/
theorem getAndParseLS_spec_witness :
    demoParse "" = none ∧
    ((demoStore "k1" = none → getAndParseLS demoParse demoStore "k1" = none) ∧
      (∀ s, demoStore "k1" = some s → demoParse s = none →
        getAndParseLS demoParse demoStore "k1" = none) ∧
      (∀ s v, demoStore "k1" = some s → demoParse s = some v →
        getAndParseLS demoParse demoStore "k1" = some v)) :=
  ⟨rfl, getAndParseLS_spec demoParse demoStore "k1" rfl⟩

/-! ## Throttle lemmas and claims C2, C3 -/

theorem take_range1 : ∀ (m s n : ℕ), (List.range' s n).take m = List.range' s (min m n) := by
  intro m
  induction m with
  | zero => intro s n; simp
  | succ m ih =>
    intro s n
    cases n with
    | zero => simp
    | succ n =>
      rw [List.range'_succ, List.take_succ_cons, ih (s + 1) n, Nat.succ_min_succ,
        List.range'_succ]

theorem drop_range1 : ∀ (m s n : ℕ), (List.range' s n).drop m = List.range' (s + min m n) (n - m) := by
  intro m
  induction m with
  | zero => intro s n; simp
  | succ m ih =>
    intro s n
    cases n with
    | zero => simp
    | succ n =>
      rw [List.range'_succ, List.drop_succ_cons, ih (s + 1) n, Nat.succ_min_succ,
        Nat.succ_sub_succ]
      congr 1
      omega


theorem settleStep_limit (s : ThrottleState) (k : ℕ) (oc : Outcome) :
    (settleStep s k oc).limit = s.limit := by
  unfold settleStep
  by_cases h : k ∈ s.executing ∧ k ∉ s.zombies
  · simp only [if_pos h]
    cases oc <;> rfl
  · simp [if_neg h]

theorem settleStep_inv {s : ThrottleState} (h : ThrottleInv s) (k : ℕ) (oc : Outcome) :
    ThrottleInv (settleStep s k oc) := by
  obtain ⟨h1, h2, L, A, hL, hA⟩ := h
  unfold settleStep
  by_cases hg : k ∈ s.executing ∧ k ∉ s.zombies
  · simp only [if_pos hg]
    cases oc with
    | fulfilled =>
      have hmem := hg.1
      have hexlen : (s.executing.erase k).length = s.executing.length - 1 :=
        List.length_erase_of_mem hmem
      have hpos : 1 ≤ s.executing.length := List.length_pos.mpr (List.ne_nil_of_mem hmem)
      refine ⟨?_, ?_, ?_⟩
      · simp only [List.length_append, hexlen, hA, take_range1, List.length_range']
        omega
      · intro hw
        simp only [hA, drop_range1, ne_eq, List.range'_eq_nil] at hw
        simp only [List.length_append, hexlen, hA, take_range1, List.length_range']
        omega
      · refine ⟨L + min (s.limit - (s.executing.erase k).length) A, A - (s.limit - (s.executing.erase k).length), ?_, ?_⟩
        · simp only [hL, hA, take_range1, List.range_eq_range']
          have happ := List.range'_append_1 0 L (min (s.limit - (s.executing.erase k).length) A)
          simpa [Nat.add_comm] using happ
        · simp only [hA, drop_range1]
    | rejected =>
      exact ⟨h1, fun hw => absurd rfl hw, L, 0, hL, by simp⟩
  · simp only [if_neg hg]
    exact ⟨h1, h2, L, A, hL, hA⟩

theorem runThrottle_inv (limit numTasks : ℕ) (events : List (ℕ × Outcome))
    (hbase : ThrottleInv (submitAll limit numTasks)) :
    ThrottleInv (runThrottle limit numTasks events) := by
  unfold runThrottle
  induction events using List.reverseRecOn with
  | nil => exact hbase
  | append_singleton es e ih =>
    rw [List.foldl_append]
    exact settleStep_inv ih e.fst e.snd

theorem submitAll_eq (limit numTasks : ℕ) :
    submitAll limit numTasks = steadyState limit numTasks 0 := by
  unfold submitAll
  induction numTasks with
  | zero => simp [initialThrottleState, steadyState]
  | succ n ih =>
    rw [List.range_succ, List.foldl_append, List.foldl_cons, List.foldl_nil, ih]
    unfold submitOne steadyState
    by_cases hc : n < limit
    · have hlen : (List.range' 0 (min limit (n - 0))).length < limit := by
        simp only [List.length_range']
        omega
      simp only [if_pos hlen]
      ext1 <;> dsimp only
      · rw [show min limit (n - 0) = n by omega,
          show min limit (n + 1 - 0) = n + 1 by omega]
        simp [List.range'_1_concat]
      · rw [show n - 0 - limit = 0 by omega, show n + 1 - 0 - limit = 0 by omega]
        simp
      · rw [show min (0 + limit) n = n by omega,
          show min (0 + limit) (n + 1) = n + 1 by omega]
        exact (List.range_succ n).symm
    · have hlen : ¬ (List.range' 0 (min limit (n - 0))).length < limit := by
        simp only [List.length_range']
        omega
      simp only [if_neg hlen]
      ext1 <;> dsimp only
      · rw [show min limit (n - 0) = limit by omega,
          show min limit (n + 1 - 0) = limit by omega]
      · rw [show min (0 + limit) n = limit by omega,
          show min (0 + limit) (n + 1) = limit by omega,
          show n + 1 - 0 - limit = (n - 0 - limit) + 1 by omega,
          List.range'_1_concat]
        congr 2
        omega
      · rw [show min (0 + limit) n = limit by omega,
          show min (0 + limit) (n + 1) = limit by omega]

theorem runThrottle_limit (limit numTasks : ℕ) (events : List (ℕ × Outcome)) :
    (runThrottle limit numTasks events).limit = limit := by
  unfold runThrottle
  induction events using List.reverseRecOn with
  | nil => rw [submitAll_eq]; rfl
  | append_singleton es e ih =>
    rw [List.foldl_append, List.foldl_cons, List.foldl_nil, settleStep_limit]
    exact ih

theorem settleStep_steady (limit numTasks i : ℕ) (hlim : 1 ≤ limit) (hi : i < numTasks) :
    settleStep (steadyState limit numTasks i) i Outcome.fulfilled
      = steadyState limit numTasks (i + 1) := by
  have hc1 : 1 ≤ min limit (numTasks - i) := by omega
  have hguard : i ∈ (steadyState limit numTasks i).executing ∧
      i ∉ (steadyState limit numTasks i).zombies := by
    constructor
    · show i ∈ List.range' i (min limit (numTasks - i))
      rw [List.mem_range']
      exact ⟨0, by omega, by omega⟩
    · show i ∉ ([] : List ℕ)
      simp
  have hex : (steadyState limit numTasks i).executing
      = i :: List.range' (i + 1) (min limit (numTasks - i) - 1) := by
    show List.range' i (min limit (numTasks - i)) = _
    conv_lhs => rw [show min limit (numTasks - i) = (min limit (numTasks - i) - 1) + 1 by omega]
    rw [List.range'_succ]
  unfold settleStep
  rw [if_pos hguard]
  simp only [hex, List.erase_cons_head]
  by_cases hA : limit < numTasks - i
  · -- waiting is nonempty: exactly one waiter launches into the freed slot
    have hm1 : min limit (numTasks - i) = limit := by omega
    have hm2 : min (i + limit) numTasks = i + limit := by omega
    ext1 <;> simp only [steadyState, List.length_range', hm1, hm2]
    · rw [show limit - (limit - 1) = 1 by omega, take_range1,
        show min 1 (numTasks - i - limit) = 1 by omega,
        show min limit (numTasks - (i + 1)) = limit by omega,
        show i + limit = i + 1 + (limit - 1) by omega,
        List.range'_append_1]
      congr 1
      omega
    · rw [show limit - (limit - 1) = 1 by omega, drop_range1,
        show min 1 (numTasks - i - limit) = 1 by omega,
        show min (i + 1 + limit) numTasks = i + 1 + limit by omega]
      congr 1 <;> omega
    · rw [show limit - (limit - 1) = 1 by omega, take_range1,
        show min 1 (numTasks - i - limit) = 1 by omega,
        show min (i + 1 + limit) numTasks = i + limit + 1 by omega]
      simp [List.range_succ]
  · -- no waiter remains: the freed slot stays free
    have hm1 : min limit (numTasks - i) = numTasks - i := by omega
    have hm2 : min (i + limit) numTasks = numTasks := by omega
    have hw0 : numTasks - i - limit = 0 := by omega
    ext1 <;> simp only [steadyState, List.length_range', hm1, hm2, hw0,
      List.range'_zero, List.take_nil, List.drop_nil, List.append_nil]
    · rw [show min limit (numTasks - (i + 1)) = numTasks - i - 1 by omega]
    · rw [show numTasks - (i + 1) - limit = 0 by omega,
        show min (i + 1 + limit) numTasks = numTasks by omega]
      simp
    · rw [show min (i + 1 + limit) numTasks = numTasks by omega]

theorem runThrottle_fulfilledSchedule (limit numTasks : ℕ) (hlim : 1 ≤ limit) :
    runThrottle limit numTasks (fulfilledSchedule numTasks)
      = steadyState limit numTasks numTasks := by
  unfold runThrottle fulfilledSchedule
  rw [submitAll_eq]
  have key : ∀ j, j ≤ numTasks →
      ((List.range j).map (fun i => (i, Outcome.fulfilled))).foldl
        (fun s e => settleStep s e.fst e.snd) (steadyState limit numTasks 0)
      = steadyState limit numTasks j := by
    intro j
    induction j with
    | zero => intro _; simp
    | succ m ih =>
      intro hm
      rw [List.range_succ, List.map_append, List.foldl_append, ih (by omega)]
      simp only [List.map_cons, List.map_nil, List.foldl_cons, List.foldl_nil]
      exact settleStep_steady limit numTasks m hlim (by omega)
  exact key numTasks le_rfl

/-- C3: for every limit N and every M > N task factories submitted through
the throttle, at no instant are more than N tasks concurrently
outstanding (indeed the executing set itself never exceeds N), and
launches respect submission order: the launched tasks always form an
initial range of the submission order, for every settlement schedule. -/
theorem throttle_bound_and_order (limit numTasks : ℕ) (events : List (ℕ × Outcome))
    (hlim : limit < numTasks) :
    outstandingCount (runThrottle limit numTasks events) ≤ limit ∧
    (runThrottle limit numTasks events).executing.length ≤ limit ∧
    ∃ L, (runThrottle limit numTasks events).launched = List.range L := by
  have hbase : ThrottleInv (submitAll limit numTasks) := by
    rw [submitAll_eq]
    refine ⟨?_, ?_, min (0 + limit) numTasks, numTasks - 0 - limit, rfl, rfl⟩
    · show (List.range' 0 (min limit (numTasks - 0))).length ≤ limit
      simp
    · intro hw
      have : numTasks - 0 - limit ≠ 0 := by
        intro h0
        apply hw
        show List.range' (min (0 + limit) numTasks) (numTasks - 0 - limit) = []
        rw [h0]
        simp
      show (List.range' 0 (min limit (numTasks - 0))).length = limit
      simp only [List.length_range']
      omega
  obtain ⟨h1, h2, L, A, hL, hA⟩ := runThrottle_inv limit numTasks events hbase
  rw [runThrottle_limit] at h1
  refine ⟨?_, h1, L, hL⟩
  calc outstandingCount (runThrottle limit numTasks events)
      ≤ (runThrottle limit numTasks events).executing.length :=
        List.length_filter_le _ _
    _ ≤ limit := h1

/-- Witness for the C3 theorem: limit 2, five tasks, a schedule with one
fulfillment and one rejection. -/
theorem throttle_bound_and_order_witness :
    2 < 5 ∧
    (outstandingCount (runThrottle 2 5 [(0, Outcome.fulfilled), (2, Outcome.rejected)]) ≤ 2 ∧
      (runThrottle 2 5 [(0, Outcome.fulfilled), (2, Outcome.rejected)]).executing.length ≤ 2 ∧
      ∃ L, (runThrottle 2 5 [(0, Outcome.fulfilled), (2, Outcome.rejected)]).launched
        = List.range L) :=
  ⟨by decide, throttle_bound_and_order 2 5 [(0, Outcome.fulfilled), (2, Outcome.rejected)]
    (by decide)⟩

/-- C2 counterexample: with limit 1 and two submitted factories, task 0
settles by rejecting.  The slot is never freed (task 0 stays in the
executing set as a zombie), and factory 1 is aborted without ever being
invoked — refuting the claim that any settlement frees exactly one slot
and launches the next pending factory, and that every submitted factory
is eventually invoked even when an earlier task fails. -/
theorem throttle_reject_counterexample :
    (runThrottle 1 2 [(0, Outcome.rejected)]).launched = [0] ∧
    (runThrottle 1 2 [(0, Outcome.rejected)]).executing = [0] ∧
    (runThrottle 1 2 [(0, Outcome.rejected)]).zombies = [0] ∧
    (runThrottle 1 2 [(0, Outcome.rejected)]).aborted = [1] := by decide

/-- C2 amended: when an outstanding task fulfills while the throttle is
saturated, exactly one slot frees and the next pending factory launches;
when an outstanding task rejects, no slot frees and every pending factory
is aborted without being invoked; consequently all submitted factories
are invoked exactly once whenever every task fulfills. -/
theorem throttle_settle_policy :
    (∀ (s : ThrottleState) (k w : ℕ) (rest : List ℕ),
        k ∈ s.executing → k ∉ s.zombies → s.waiting = w :: rest →
        s.executing.length = s.limit →
        (settleStep s k Outcome.fulfilled).launched = s.launched ++ [w] ∧
        (settleStep s k Outcome.fulfilled).executing.length = s.limit ∧
        (settleStep s k Outcome.fulfilled).waiting = rest) ∧
    (∀ (s : ThrottleState) (k : ℕ),
        k ∈ s.executing → k ∉ s.zombies →
        (settleStep s k Outcome.rejected).executing = s.executing ∧
        (settleStep s k Outcome.rejected).launched = s.launched ∧
        (settleStep s k Outcome.rejected).waiting = [] ∧
        (settleStep s k Outcome.rejected).aborted = s.aborted ++ s.waiting) ∧
    (∀ limit numTasks : ℕ, 1 ≤ limit →
        (runThrottle limit numTasks (fulfilledSchedule numTasks)).launched
            = List.range numTasks ∧
        (runThrottle limit numTasks (fulfilledSchedule numTasks)).aborted = []) := by
  refine ⟨?_, ?_, ?_⟩
  · intro s k w rest hk hz hw hsat
    have hpos : 1 ≤ s.executing.length := List.length_pos.mpr (List.ne_nil_of_mem hk)
    have hexlen : (s.executing.erase k).length = s.executing.length - 1 :=
      List.length_erase_of_mem hk
    have hcap : s.limit - (s.executing.erase k).length = 1 := by omega
    unfold settleStep
    rw [if_pos ⟨hk, hz⟩]
    refine ⟨?_, ?_, ?_⟩
    · simp [hcap, hw]
    · simp [hcap, hw, hexlen]
      omega
    · simp [hcap, hw]
  · intro s k hk hz
    unfold settleStep
    rw [if_pos ⟨hk, hz⟩]
    exact ⟨rfl, rfl, rfl, rfl⟩
  · intro limit numTasks hlim
    rw [runThrottle_fulfilledSchedule limit numTasks hlim]
    constructor
    · show List.range (min (numTasks + limit) numTasks) = List.range numTasks
      rw [show min (numTasks + limit) numTasks = numTasks by omega]
    · rfl

/-- Witness for the C2 amended theorem on concrete scheduler states. -/
theorem throttle_settle_policy_witness :
    ((5 ∈ [5] ∧ (5 : ℕ) ∉ ([] : List ℕ) ∧ ([7] : List ℕ) = 7 :: [] ∧
        ([5] : List ℕ).length = 1) ∧ 1 ≤ 1) ∧
    ((settleStep ⟨1, [5], [], [7], [5], []⟩ 5 Outcome.fulfilled).launched = [5] ++ [7] ∧
      (settleStep ⟨1, [5], [], [7], [5], []⟩ 5 Outcome.fulfilled).executing.length = 1 ∧
      (settleStep ⟨1, [5], [], [7], [5], []⟩ 5 Outcome.fulfilled).waiting = []) ∧
    ((settleStep ⟨1, [5], [0], [], [5], [9]⟩ 5 Outcome.rejected).executing = [5] ∧
      (settleStep ⟨1, [5], [0], [], [5], [9]⟩ 5 Outcome.rejected).launched = [5] ∧
      (settleStep ⟨1, [5], [0], [], [5], [9]⟩ 5 Outcome.rejected).waiting = [] ∧
      (settleStep ⟨1, [5], [0], [], [5], [9]⟩ 5 Outcome.rejected).aborted = [9] ++ []) ∧
    ((runThrottle 1 3 (fulfilledSchedule 3)).launched = List.range 3 ∧
      (runThrottle 1 3 (fulfilledSchedule 3)).aborted = []) :=
  ⟨⟨⟨by decide, by decide, rfl, rfl⟩, by decide⟩,
    throttle_settle_policy.1 ⟨1, [5], [], [7], [5], []⟩ 5 7 [] (by decide) (by decide) rfl rfl,
    throttle_settle_policy.2.1 ⟨1, [5], [0], [], [5], [9]⟩ 5 (by decide) (by decide),
    throttle_settle_policy.2.2 1 3 (by decide)⟩

/-! ## Finalize ordering lemmas and claim C6 -/

theorem lookup_iff (cleaned : List UploadPartResponse) (n : ℕ) :
    finishedPartsLookup cleaned n = true ↔ n ∈ partNumbers cleaned := by
  simp only [finishedPartsLookup, partNumbers, List.any_eq_true, List.mem_map,
    beq_iff_eq]

theorem fresh_sorted (etags : ℕ → Option String) (n : ℕ) :
    List.Sorted (· < ·) (partNumbers (freshResolvedArr etags n)) := by
  have : partNumbers (freshResolvedArr etags n)
      = (List.range n).map (fun k => k + 1) := by
    simp [partNumbers, freshResolvedArr, List.map_map]
  rw [this, List.Sorted]
  exact (List.pairwise_lt_range n).map _ (by omega)

theorem resume_keys (etags : ℕ → Option String) (n : ℕ)
    (cleaned : List UploadPartResponse) :
    partNumbers (resumeResolvedArr etags n cleaned)
      = (List.range n).filterMap (fun k =>
          if finishedPartsLookup cleaned (k + 1) then none else some (k + 1)) := by
  simp only [partNumbers, resumeResolvedArr, List.map_filterMap]
  congr 1
  funext k
  by_cases h : finishedPartsLookup cleaned (k + 1) <;> simp [h]

theorem resume_keys_nodup (etags : ℕ → Option String) (n : ℕ)
    (cleaned : List UploadPartResponse) :
    (partNumbers (resumeResolvedArr etags n cleaned)).Nodup := by
  rw [resume_keys]
  refine List.Nodup.filterMap ?_ (List.nodup_range n)
  intro a b c hca hcb
  by_cases ha : finishedPartsLookup cleaned (a + 1) <;>
    by_cases hb : finishedPartsLookup cleaned (b + 1) <;>
      simp [ha, hb] at hca hcb
  omega

theorem merged_keys_nodup (etags : ℕ → Option String) (n : ℕ)
    (cleaned : List UploadPartResponse)
    (hnodup : (partNumbers cleaned).Nodup) :
    (partNumbers (cleaned ++ resumeResolvedArr etags n cleaned)).Nodup := by
  have hmap : partNumbers (cleaned ++ resumeResolvedArr etags n cleaned)
      = partNumbers cleaned ++ partNumbers (resumeResolvedArr etags n cleaned) := by
    simp [partNumbers]
  rw [hmap, List.nodup_append]
  refine ⟨hnodup, resume_keys_nodup etags n cleaned, ?_⟩
  intro m hm hm2
  rw [resume_keys] at hm2
  rw [List.mem_filterMap] at hm2
  obtain ⟨k, _, hk⟩ := hm2
  by_cases h : finishedPartsLookup cleaned (k + 1)
  · simp [h] at hk
  · simp [h] at hk
    subst hk
    exact h ((lookup_iff cleaned (k + 1)).mpr hm)

theorem sorted_result (parts : List UploadPartResponse)
    (hnodup : (partNumbers parts).Nodup) :
    List.Sorted (· < ·) (partNumbers (sortedUploadPartsArray parts)) := by
  haveI : IsTotal UploadPartResponse (fun a b => a.PartNumber ≤ b.PartNumber) :=
    ⟨fun a b => Nat.le_total a.PartNumber b.PartNumber⟩
  haveI : IsTrans UploadPartResponse (fun a b => a.PartNumber ≤ b.PartNumber) :=
    ⟨fun _ _ _ h1 h2 => Nat.le_trans h1 h2⟩
  have hsorted := List.sorted_insertionSort
    (fun a b : UploadPartResponse => a.PartNumber ≤ b.PartNumber) parts
  have hperm : List.Perm (sortedUploadPartsArray parts) parts :=
    List.perm_insertionSort _ parts
  have hnd : (partNumbers (sortedUploadPartsArray parts)).Nodup := by
    refine (List.Perm.nodup_iff ?_).mpr hnodup
    exact hperm.map _
  rw [List.Sorted, partNumbers, List.pairwise_map]
  rw [partNumbers, List.Nodup, List.pairwise_map] at hnd
  exact (hsorted.and hnd).imp (fun h => Nat.lt_of_le_of_ne h.1 h.2)

/-- C6: in both the fresh-upload flow and the resume flow, the parts
array passed to the complete call is sorted strictly ascending by
PartNumber, regardless of the order in which the individual part uploads
finished.  The fresh flow passes the Promise.all result, which is in
ascending loop order by construction; the resume flow sorts the merged
array, which under the stated uniqueness of the finished part numbers is
strictly ascending. -/
theorem completeParts_sorted_ascending (etags : ℕ → Option String)
    (totalParts : ℕ) (cleaned : List UploadPartResponse)
    (hnodup : (partNumbers cleaned).Nodup) :
    List.Sorted (· < ·) (partNumbers (freshResolvedArr etags totalParts)) ∧
    List.Sorted (· < ·) (partNumbers (sortedUploadPartsArray
      (cleaned ++ resumeResolvedArr etags totalParts cleaned))) :=
  ⟨fresh_sorted etags totalParts,
    sorted_result _ (merged_keys_nodup etags totalParts cleaned hnodup)⟩

/-- Witness for the C6 theorem: three parts, part 1 already finished. -/
theorem completeParts_sorted_ascending_witness :
    (partNumbers [{ ETag := some "a", PartNumber := 1 }]).Nodup ∧
    (List.Sorted (· < ·)
        (partNumbers (freshResolvedArr (fun _ => some "e") 3)) ∧
      List.Sorted (· < ·) (partNumbers (sortedUploadPartsArray
        ([{ ETag := some "a", PartNumber := 1 }] ++
          resumeResolvedArr (fun _ => some "e") 3
            [{ ETag := some "a", PartNumber := 1 }])))) :=
  ⟨by decide, completeParts_sorted_ascending (fun _ => some "e") 3
    [{ ETag := some "a", PartNumber := 1 }] (by decide)⟩

/-! ## Progress aggregation lemmas and claim C1 -/

/-- C1 counterexample: resuming with parts 1 and 2 of 3 finished emits
startingPercentage = round(200/3) = 67 on totalProgress, but the first
onprogress callback of part 3 at 0 percent emits floor(200/3) = 66,
because the guard compares against totalUploadProgress, which the
resume-time emission never updated, and resume rounds while the
aggregator floors.  The emitted sequence [67, 66] is decreasing and
drops below the resume starting point, refuting the claim. -/
theorem progress_counterexample :
    resumeProgressTrace 3
        [{ ETag := some "a", PartNumber := 1 }, { ETag := some "b", PartNumber := 2 }]
        [(3, 0)]
      = [67, 66] ∧ (66 : ℕ) < 67 := by
  constructor
  · rfl
  · decide

-- emissions strictly increasing, all above the running totalUploadProgress
theorem runProgress_emits (totalParts : ℕ) :
    ∀ (steps : List (ℕ × ℕ)) (s : ProgressState),
      (∀ x ∈ (runProgress totalParts s steps).snd, s.totalUploadProgress < x) ∧
      List.Sorted (· < ·) (runProgress totalParts s steps).snd := by
  intro steps
  induction steps with
  | nil => intro s; simp [runProgress]
  | cons e rest ih =>
    intro s
    rw [runProgress]
    by_cases h : s.totalUploadProgress <
        progressSum (setPartProgress s.partsUploadProgress e.fst e.snd) / totalParts
    · simp only [onProgressStep, if_pos h, Option.toList_some, List.cons_append,
        List.nil_append]
      obtain ⟨ih1, ih2⟩ := ih ⟨setPartProgress s.partsUploadProgress e.fst e.snd,
        progressSum (setPartProgress s.partsUploadProgress e.fst e.snd) / totalParts⟩
      constructor
      · intro x hx
        rcases List.mem_cons.mp hx with hx | hx
        · omega
        · have := ih1 x hx
          simp only at this
          omega
      · rw [List.sorted_cons]
        refine ⟨?_, ih2⟩
        intro b hb
        have := ih1 b hb
        simp only at this
        omega
    · simp only [onProgressStep, if_neg h, Option.toList_none, List.nil_append]
      obtain ⟨ih1, ih2⟩ := ih ⟨setPartProgress s.partsUploadProgress e.fst e.snd,
        s.totalUploadProgress⟩
      exact ⟨fun x hx => ih1 x hx, ih2⟩

-- updates with a part number absent from the seed keep the seed prefix intact
theorem setPartProgress_append (seed t : List (ℕ × ℕ)) (pn pct : ℕ)
    (hfresh : seed.any (fun e => e.fst == pn) = false) :
    setPartProgress (seed ++ t) pn pct = seed ++ setPartProgress t pn pct := by
  have hseed : ∀ e ∈ seed, (e.fst == pn) = false := by
    simpa [List.any_eq_false] using hfresh
  unfold setPartProgress
  rw [List.any_append, hfresh, Bool.false_or]
  by_cases ht : t.any (fun e => e.fst == pn) = true
  · rw [if_pos ht, if_pos ht, List.map_append]
    congr 1
    conv_rhs => rw [show seed = List.map id seed from (List.map_id seed).symm]
    apply List.map_congr_left
    intro e he
    simp [hseed e he]
  · rw [if_neg ht, if_neg ht, List.append_assoc]

theorem seed_foldl (cleaned : List UploadPartResponse) :
    ∀ acc : List (ℕ × ℕ),
      (partNumbers cleaned).Nodup →
      (∀ p ∈ cleaned, acc.any (fun e => e.fst == p.PartNumber) = false) →
      cleaned.foldl (fun m part => setPartProgress m part.PartNumber 100) acc
        = acc ++ cleaned.map (fun p => (p.PartNumber, 100)) := by
  induction cleaned with
  | nil =>
    intro acc _ _
    simp
  | cons p rest ih =>
    intro acc hnodup hacc
    have hnd : p.PartNumber ∉ partNumbers rest ∧ (partNumbers rest).Nodup := by
      have h0 : (partNumbers (p :: rest)).Nodup := hnodup
      rw [partNumbers, List.map_cons] at h0
      exact ⟨(List.nodup_cons.mp h0).1, (List.nodup_cons.mp h0).2⟩
    simp only [List.foldl_cons]
    have hp : acc.any (fun e => e.fst == p.PartNumber) = false := hacc p (by simp)
    have hset : setPartProgress acc p.PartNumber 100 = acc ++ [(p.PartNumber, 100)] := by
      unfold setPartProgress
      rw [hp]
      simp
    rw [hset, ih (acc ++ [(p.PartNumber, 100)]) hnd.2 ?_]
    · simp
    · intro q hq
      rw [List.any_append, hacc q (by simp [hq]), Bool.false_or]
      have hne : p.PartNumber ≠ q.PartNumber := by
        intro he
        exact hnd.1 (by rw [he]; exact List.mem_map_of_mem _ hq)
      simp [hne]

theorem seed_eq (cleaned : List UploadPartResponse)
    (hnodup : (partNumbers cleaned).Nodup) :
    (seedFinishedParts cleaned).partsUploadProgress
      = cleaned.map (fun p => (p.PartNumber, 100)) := by
  unfold seedFinishedParts
  rw [seed_foldl cleaned [] hnodup (fun p _ => rfl)]
  simp

theorem seed_sum (cleaned : List UploadPartResponse) :
    progressSum (cleaned.map (fun p => (p.PartNumber, 100)))
      = 100 * cleaned.length := by
  unfold progressSum
  induction cleaned with
  | nil => simp
  | cons p rest ih =>
    simp only [List.map_cons, List.sum_cons, List.length_cons]
    simp only [progressSum] at ih
    omega

theorem runProgress_lower (totalParts : ℕ) (seed : List (ℕ × ℕ)) :
    ∀ (steps : List (ℕ × ℕ)) (s : ProgressState) (t : List (ℕ × ℕ)),
      s.partsUploadProgress = seed ++ t →
      (∀ e ∈ steps, seed.any (fun y => y.fst == e.fst) = false) →
      ∀ x ∈ (runProgress totalParts s steps).snd,
        progressSum seed / totalParts ≤ x := by
  intro steps
  induction steps with
  | nil =>
    intro s t hs hst x hx
    simp [runProgress] at hx
  | cons e rest ih =>
    intro s t hs hst x hx
    rw [runProgress] at hx
    have hfresh : seed.any (fun y => y.fst == e.fst) = false := hst e (by simp)
    have hparts : setPartProgress s.partsUploadProgress e.fst e.snd
        = seed ++ setPartProgress t e.fst e.snd := by
      rw [hs, setPartProgress_append seed t e.fst e.snd hfresh]
    by_cases h : s.totalUploadProgress <
        progressSum (setPartProgress s.partsUploadProgress e.fst e.snd) / totalParts
    · simp only [onProgressStep, if_pos h, Option.toList_some, List.cons_append,
        List.nil_append, List.mem_cons] at hx
      rcases hx with rfl | hx
      · rw [hparts]
        have hmono : progressSum seed
            ≤ progressSum (seed ++ setPartProgress t e.fst e.snd) := by
          simp only [progressSum, List.map_append, List.sum_append]
          exact Nat.le_add_right _ _
        exact Nat.div_le_div_right hmono
      · exact ih _ (setPartProgress t e.fst e.snd) (by simpa using hparts)
          (fun y hy => hst y (by simp [hy])) x hx
    · simp only [onProgressStep, if_neg h, Option.toList_none, List.nil_append] at hx
      exact ih _ (setPartProgress t e.fst e.snd) (by simpa using hparts)
        (fun y hy => hst y (by simp [hy])) x hx

theorem startingPercentage_le (k n total : ℕ) (hle : 100 * k / n ≤ total) :
    startingPercentage k n ≤ total + 1 := by
  unfold startingPercentage
  rcases Nat.eq_zero_or_pos n with hn | hn
  · subst hn
    simp
  · have hlt : (200 * k + n) / (2 * n) < 100 * k / n + 2 := by
      rw [Nat.div_lt_iff_lt_mul (by omega : 0 < 2 * n)]
      have h1 := Nat.div_add_mod (100 * k) n
      have hmod1 : (100 * k) % n < n := Nat.mod_lt _ hn
      nlinarith [h1, hmod1]
    omega

/-- C1 amended: the guarded totalProgress emissions form a strictly
increasing sequence, and on a resumed upload every emitted percentage
(including the unguarded resume-time one) is at least
startingPercentage - 1; the single possible 1-point dip below the resume
starting point comes from resume using Math.round where the aggregator
uses Math.floor.  Hypotheses mirror the code: the seeded finished parts
have distinct part numbers, and onprogress callbacks only concern parts
absent from the finished lookup, since loopMultipartParts skips finished
parts. -/
theorem resumeProgress_amended (totalParts : ℕ) (cleaned : List UploadPartResponse)
    (steps : List (ℕ × ℕ))
    (hnodup : (partNumbers cleaned).Nodup)
    (hsteps : ∀ e ∈ steps, finishedPartsLookup cleaned e.fst = false) :
    List.Sorted (· < ·)
      (runProgress totalParts (seedFinishedParts cleaned) steps).snd ∧
    (∀ x ∈ resumeProgressTrace totalParts cleaned steps,
      startingPercentage cleaned.length totalParts ≤ x + 1) := by
  constructor
  · exact (runProgress_emits totalParts steps (seedFinishedParts cleaned)).2
  · intro x hx
    rw [resumeProgressTrace, List.mem_cons] at hx
    rcases hx with rfl | hx
    · omega
    · have hfresh : ∀ e ∈ steps,
          (cleaned.map (fun p => (p.PartNumber, 100))).any
            (fun y => y.fst == e.fst) = false := by
        intro e he
        have hl := hsteps e he
        simp only [finishedPartsLookup, List.any_eq_false] at hl ⊢
        intro y hy
        rw [List.mem_map] at hy
        obtain ⟨p, hp, rfl⟩ := hy
        simpa using hl p hp
      have heq : (seedFinishedParts cleaned).partsUploadProgress
          = cleaned.map (fun p => (p.PartNumber, 100)) ++ [] := by
        rw [seed_eq cleaned hnodup, List.append_nil]
      have hlow := runProgress_lower totalParts
        (cleaned.map (fun p => (p.PartNumber, 100))) steps
        (seedFinishedParts cleaned) [] heq hfresh x hx
      rw [seed_sum cleaned] at hlow
      exact startingPercentage_le cleaned.length totalParts x hlow

/-- Witness for the C1 amended theorem: part 1 of 3 finished, then part
2 reaches 50 percent and part 3 reaches 100 percent. -/
theorem resumeProgress_amended_witness :
    ((partNumbers [{ ETag := some "a", PartNumber := 1 }]).Nodup ∧
      (∀ e ∈ [((2 : ℕ), (50 : ℕ)), (3, 100)],
        finishedPartsLookup [{ ETag := some "a", PartNumber := 1 }] e.fst = false)) ∧
    (List.Sorted (· < ·)
        (runProgress 3 (seedFinishedParts [{ ETag := some "a", PartNumber := 1 }])
          [(2, 50), (3, 100)]).snd ∧
      (∀ x ∈ resumeProgressTrace 3 [{ ETag := some "a", PartNumber := 1 }]
          [(2, 50), (3, 100)],
        startingPercentage 1 3 ≤ x + 1)) :=
  ⟨⟨by decide, by decide⟩,
    resumeProgress_amended 3 [{ ETag := some "a", PartNumber := 1 }]
      [(2, 50), (3, 100)] (by decide) (by decide)⟩

/-! ## Orchestration lemmas and claims C7, C8, C10 -/

/-- C7 amended: a persisted record with a non-empty finishedParts list
that fails the code's completeness check (missing uploadId or s3Filename,
non-positive totalParts, missing or zero partSizeInBytes, or no finished
parts remaining after tag-filtering) is deleted, the orchestrator falls
back to the fresh create flow, and neither an uploadResumed event nor any
error event is emitted for the invalid record. -/
theorem invalidRecord_freshFallback (fileName : String) (r : LocalUploadRecord)
    (store : String → Option LocalUploadRecord)
    (hne : r.finishedParts ≠ [])
    (hbad : isCompleteLocalRecord r (cleanUpETags r.finishedParts) = false) :
    (uploadUnfinishedPrefix fileName r).2.2 = ResumeBranch.freshFallback ∧
    (uploadUnfinishedPrefix fileName r).2.1 = [] ∧
    applyStoreActions store (uploadUnfinishedPrefix fileName r).1
      (lsKey fileName) = none := by
  refine ⟨?_, ?_, ?_⟩ <;>
    simp [uploadUnfinishedPrefix, hbad, applyStoreActions, applyStoreAction]

/-- Witness for the C7 amended theorem: a record lacking uploadId. -/
theorem invalidRecord_freshFallback_witness :
    (({ originalFilename := "g.mov", totalFileSizeInBytes := 30, totalParts := 3,
        partSizeInBytes := 10, finishedParts := [{ ETag := some "e", PartNumber := 1 }],
        uploadId := none, s3Filename := some "s" } : LocalUploadRecord).finishedParts ≠ [] ∧
      isCompleteLocalRecord
        { originalFilename := "g.mov", totalFileSizeInBytes := 30, totalParts := 3,
          partSizeInBytes := 10, finishedParts := [{ ETag := some "e", PartNumber := 1 }],
          uploadId := none, s3Filename := some "s" }
        (cleanUpETags [{ ETag := some "e", PartNumber := 1 }]) = false) ∧
    ((uploadUnfinishedPrefix "g.mov"
        { originalFilename := "g.mov", totalFileSizeInBytes := 30, totalParts := 3,
          partSizeInBytes := 10, finishedParts := [{ ETag := some "e", PartNumber := 1 }],
          uploadId := none, s3Filename := some "s" }).2.2 = ResumeBranch.freshFallback ∧
      (uploadUnfinishedPrefix "g.mov"
        { originalFilename := "g.mov", totalFileSizeInBytes := 30, totalParts := 3,
          partSizeInBytes := 10, finishedParts := [{ ETag := some "e", PartNumber := 1 }],
          uploadId := none, s3Filename := some "s" }).2.1 = [] ∧
      applyStoreActions (fun _ => none)
        (uploadUnfinishedPrefix "g.mov"
          { originalFilename := "g.mov", totalFileSizeInBytes := 30, totalParts := 3,
            partSizeInBytes := 10, finishedParts := [{ ETag := some "e", PartNumber := 1 }],
            uploadId := none, s3Filename := some "s" }).1 (lsKey "g.mov") = none) :=
  ⟨⟨by simp, by simp [isCompleteLocalRecord, strTruthy]⟩,
    invalidRecord_freshFallback "g.mov" _ (fun _ => none) (by simp)
      (by simp [isCompleteLocalRecord, strTruthy])⟩

/-- C7 counterexample: a record whose partSizeInBytes is the negative
number -1 is non-positive, so the claim counts it as failing the
completeness check and requires a silent fresh-flow fallback; but the
code only tests JavaScript truthiness of partSizeInBytes, a negative
value passes, and the orchestrator resumes and emits uploadResumed. -/
theorem invalidRecord_counterexample :
    specCompleteCheck badRecord (cleanUpETags badRecord.finishedParts) = false ∧
    (uploadUnfinishedPrefix "f.mov" badRecord).2.2
      = ResumeBranch.resumeParts [{ ETag := some "e", PartNumber := 1 }] ∧
    UploadEvent.uploadResumed 33 ∈ (uploadUnfinishedPrefix "f.mov" badRecord).2.1 := by
  have hneg : decide ((0 : ℚ) < badRecord.partSizeInBytes) = false := by
    rw [decide_eq_false_iff_not]
    norm_num [badRecord]
  have hnz : decide (badRecord.partSizeInBytes ≠ 0) = true := by
    rw [decide_eq_true_eq]
    norm_num [badRecord]
  refine ⟨?_, ?_, ?_⟩
  · simp [specCompleteCheck, hneg]
  · simp [uploadUnfinishedPrefix, isCompleteLocalRecord, hnz, badRecord,
      cleanUpETags, strTruthy]
  · simp [uploadUnfinishedPrefix, isCompleteLocalRecord, hnz, badRecord,
      cleanUpETags, strTruthy, startingPercentage]

theorem runPartsPhase_some : ∀ (evs : List PartOutcome) (r : LocalUploadRecord),
    runPartsPhase (some r) evs
      = some { r with finishedParts := r.finishedParts ++ succeededResponses evs } := by
  intro evs
  induction evs with
  | nil =>
    intro r
    simp [runPartsPhase, succeededResponses]
  | cons e rest ih =>
    intro r
    cases e with
    | succeeded resp =>
      simp only [runPartsPhase, List.foldl_cons, applyPartOutcome] at ih ⊢
      rw [ih { r with finishedParts := r.finishedParts ++ [resp] }]
      simp [succeededResponses, List.filterMap_cons]
    | failed pn =>
      simp only [runPartsPhase, List.foldl_cons, applyPartOutcome] at ih ⊢
      rw [ih r]
      simp [succeededResponses, List.filterMap_cons]

/-- C8: when one or more part uploads fail after a record was persisted,
the parts phase rejects, yet the persisted record survives and holds the
initial finished parts plus every part that succeeded in this run, and
the next attempt plans exactly the part numbers absent from the record's
finished lookup. -/
theorem partFailure_preserves_record (r0 : LocalUploadRecord)
    (evs : List PartOutcome) (totalParts : ℕ)
    (hfail : partsPhaseRejects evs = true) :
    partsPhaseResult evs
        = Except.error "Video Upload | one or more parts failed to upload to s3" ∧
    runPartsPhase (some r0) evs
        = some { r0 with finishedParts := r0.finishedParts ++ succeededResponses evs } ∧
    (∀ m, m ∈ plannedPartNumbers totalParts
          (r0.finishedParts ++ succeededResponses evs)
        ↔ ((∃ k, k < totalParts ∧ m = k + 1) ∧
            finishedPartsLookup (r0.finishedParts ++ succeededResponses evs) m
              = false)) := by
  refine ⟨by simp [partsPhaseResult, hfail], runPartsPhase_some evs r0, ?_⟩
  intro m
  simp only [plannedPartNumbers, List.mem_filterMap, List.mem_range]
  constructor
  · rintro ⟨k, hk, hval⟩
    by_cases h : finishedPartsLookup (r0.finishedParts ++ succeededResponses evs) (k + 1)
    · simp [h] at hval
    · simp [h] at hval
      subst hval
      exact ⟨⟨k, hk, rfl⟩, by simpa using h⟩
  · rintro ⟨⟨k, hk, rfl⟩, hlk⟩
    exact ⟨k, hk, by simp [hlk]⟩

/-- Witness for the C8 theorem: part 1 succeeds, part 2 fails. -/
theorem partFailure_preserves_record_witness :
    partsPhaseRejects demoPartsEvents = true ∧
    (partsPhaseResult demoPartsEvents
        = Except.error "Video Upload | one or more parts failed to upload to s3" ∧
      runPartsPhase (some demoPartsRecord) demoPartsEvents
        = some { demoPartsRecord with
            finishedParts :=
              demoPartsRecord.finishedParts ++ succeededResponses demoPartsEvents } ∧
      (∀ m, m ∈ plannedPartNumbers 3
            (demoPartsRecord.finishedParts ++ succeededResponses demoPartsEvents)
          ↔ ((∃ k, k < 3 ∧ m = k + 1) ∧
              finishedPartsLookup
                (demoPartsRecord.finishedParts ++ succeededResponses demoPartsEvents) m
                = false))) :=
  ⟨rfl, partFailure_preserves_record demoPartsRecord demoPartsEvents 3 rfl⟩

/-- C10: when the create call resolves but its response lacks uploadId or
s3Filename, uploadMultipart still emits the uploadCreated event carrying
the missing values before the validity check, then rejects with an error,
and no store action is performed, so no record is persisted. -/
theorem createMissingFields_flow (fileName : String)
    (fileSize partMinSizeBytes : ℚ) (maxNumParts : ℕ)
    (resp : CreateMultipartUploadResponse)
    (hmiss : strTruthy resp.uploadId = false ∨ strTruthy resp.s3Filename = false) :
    (afterCreateResolved fileName fileSize partMinSizeBytes maxNumParts resp).1
        = [UploadEvent.uploadCreated resp.uploadId resp.s3Filename,
           UploadEvent.errorEvent
             "uploadMultipartCreate | did not receive either s3Filename or uploadId"] ∧
    (afterCreateResolved fileName fileSize partMinSizeBytes maxNumParts resp).2.1
        = [] ∧
    (afterCreateResolved fileName fileSize partMinSizeBytes maxNumParts resp).2.2
        = Except.error
            "uploadMultipartCreate | did not receive either s3Filename or uploadId" := by
  have hcond : (!strTruthy resp.s3Filename || !strTruthy resp.uploadId) = true := by
    rcases hmiss with h | h <;> simp [h]
  refine ⟨?_, ?_, ?_⟩ <;> simp [afterCreateResolved, hcond]

/-- Witness for the C10 theorem: a response with uploadId missing. -/
theorem createMissingFields_flow_witness :
    (strTruthy (CreateMultipartUploadResponse.mk none (some "s3")).uploadId = false ∨
      strTruthy (CreateMultipartUploadResponse.mk none (some "s3")).s3Filename = false) ∧
    ((afterCreateResolved "w.mov" 30 10 96 ⟨none, some "s3"⟩).1
        = [UploadEvent.uploadCreated none (some "s3"),
           UploadEvent.errorEvent
             "uploadMultipartCreate | did not receive either s3Filename or uploadId"] ∧
      (afterCreateResolved "w.mov" 30 10 96 ⟨none, some "s3"⟩).2.1 = [] ∧
      (afterCreateResolved "w.mov" 30 10 96 ⟨none, some "s3"⟩).2.2
        = Except.error
            "uploadMultipartCreate | did not receive either s3Filename or uploadId") :=
  ⟨Or.inl rfl, createMissingFields_flow "w.mov" 30 10 96 ⟨none, some "s3"⟩ (Or.inl rfl)⟩


end MultipartUploader
